import Mathlib

/-!
Verification of the bytecode compiler (`src/compile.rs`) and bytecode
interpreter (`src/unused/bytecode.rs`) of an Emacs-Lisp style evaluator.

The Rust data model and operations are shallowly embedded:
machine integers become `Nat`/`Int` with explicit reductions modulo
`2 ^ w` where wrapping matters, fallible operations return `Except`,
iterators over cons chains become an upfront listing of the elements,
and the mutable compiler/interpreter state is threaded explicitly.
-/

namespace Rune

/-- Arity descriptor of a function: `FnArgs { required: u16, optional: u16,
rest: bool }` from the object module. -/
structure FnArgs where
  required : Nat
  optional : Nat
  rest : Bool
  deriving DecidableEq, Repr

/-- The opcode set (`OpCode` in `src/opcode.rs`). -/
inductive OpCode where
  | StackRef0 | StackRef1 | StackRef2 | StackRef3 | StackRef4 | StackRef5
  | StackRefN | StackRefN2
  | StackSet0 | StackSet1 | StackSet2 | StackSet3 | StackSet4 | StackSet5
  | StackSetN | StackSetN2
  | Constant0 | Constant1 | Constant2 | Constant3 | Constant4 | Constant5
  | ConstantN | ConstantN2
  | VarRef0 | VarRef1 | VarRef2 | VarRef3 | VarRef4 | VarRef5
  | VarRefN | VarRefN2
  | VarSet0 | VarSet1 | VarSet2 | VarSet3 | VarSet4 | VarSet5
  | VarSetN | VarSetN2
  | Call0 | Call1 | Call2 | Call3 | Call4 | Call5 | CallN | CallN2
  | Discard | DiscardN | DiscardNKeepTOS | Duplicate
  | Jump | JumpNil | JumpNotNil | JumpNilElsePop | JumpNotNilElsePop
  | Ret | Unknown
  deriving DecidableEq, Repr

/-- One cell of the code vector.  The code vector in the source is a byte
vector in which each opcode occupies one byte and immediate operands are
raw bytes; the numeric opcode values are private to the build, so a cell
is either an opcode byte or an operand byte. -/
inductive Code where
  | op (o : OpCode) : Code
  | byte (b : Nat) : Code
  deriving DecidableEq, Repr

/-- `CodeVec`, the compiler's growable byte vector of code. -/
abbrev CodeVec := List Code

/-- The tagged Lisp object (`Object` in the source).  Symbols are interned
and address stable, so a symbol is represented by its name.  A compiled
function (`LispFn`) carries its opcode bytes, its constant pool and its
arity.  Variants not exercised by the compiler/interpreter core under
verification (floats, vectors, hash tables) are not needed by any claim
and are omitted. -/
inductive Obj where
  | nil : Obj
  | t : Obj
  | int (n : Int) : Obj
  | sym (name : String) : Obj
  | str (s : String) : Obj
  | cons (car cdr : Obj) : Obj
  | lispFn (codes : List Code) (consts : List Obj) (args : FnArgs) : Obj
  | subrFn (name : String) (args : FnArgs) : Obj
  deriving Repr

mutual

/-- Structural equality of objects, the embedding of `PartialEq` for
`Object`.  For cons cells this is the `PartialEq` of `src/cons.rs`
(`self.__car() == other.__car() && self.__cdr() == other.__cdr()`),
for `LispFn` the derived structural equality of its body and arity. -/
def Obj.beq : Obj → Obj → Bool
  | .nil, .nil => true
  | .t, .t => true
  | .int a, .int b => a == b
  | .sym a, .sym b => a == b
  | .str a, .str b => a == b
  | .cons a d, .cons a' d' => Obj.beq a a' && Obj.beq d d'
  | .lispFn c k g, .lispFn c' k' g' => c == c' && Obj.listBeq k k' && g == g'
  | .subrFn n a, .subrFn n' a' => n == n' && a == a'
  | _, _ => false

/-- Pointwise structural equality of constant pools. -/
def Obj.listBeq : List Obj → List Obj → Bool
  | [], [] => true
  | x :: xs, y :: ys => Obj.beq x y && Obj.listBeq xs ys
  | _, _ => false

end

/-! ## Byte-level encoding helpers

`push_op_n2` emits a 16-bit operand as `(arg >> 8) as u8` followed by
`arg as u8`: high byte first. -/

/-- The two operand bytes that `CodeVec::push_op_n2` pushes for a `u16`
argument: `(arg >> 8) as u8` then `arg as u8`. -/
def pushOpN2bytes (arg : Nat) : List Nat :=
  [(arg / 256) % 256, arg % 256]

/-- `Ip::next2` from `src/unused/bytecode.rs`: the next two bytes of the
stream combined by `u16::from_le_bytes([b0, b1])`, so the first fetched
byte is the LOW byte. -/
def next2 (b0 b1 : Nat) : Nat :=
  b0 % 256 + 256 * (b1 % 256)

/-- Decoding a list of two bytes with `next2` in stream order. -/
def next2OfList (bs : List Nat) : Nat :=
  match bs with
  | [b0, b1] => next2 b0 b1
  | _ => 0

/-! ## Constant pool (`ConstVec`) -/

/-- `ConstVec::insert_or_get`: return the position of the first
structurally `==` entry, otherwise append.  Result is the new pool and
the chosen index. -/
def insertOrGet (consts : List Obj) (obj : Obj) : List Obj × Nat :=
  match consts.findIdx? (fun x => Obj.beq obj x) with
  | none => (consts ++ [obj], consts.length)
  | some i => (consts, i)

/-- Compile-time errors: `CompError` of `src/compile.rs` together with the
shared `Error` kinds it raises (`ArgCount`, type errors), the
bytecode-interpreter errors, and interpreter fuel exhaustion for the
embedding of unbounded loops. -/
inductive Err where
  | constOverflow
  | letValueCount (n : Nat)
  | stackSizeOverflow
  | macroRecursion
  | argCount (expected got : Nat)
  | typeError
  | invalidFunction (name : String)
  | invalidMacroType
  | voidFunction (name : String)
  | voidVariable (name : String)
  | macroCallAtRuntime (name : String)
  | unknownOpcode
  | ipOutOfRange
  | stackUnderflow
  | invalidConstIndex
  | multipleRestArgs
  | consDispatchUnsupported
  | fuel
  deriving DecidableEq, Repr

/-- Interpretation of a `u16` value as an `i16` (the `as i16` cast). -/
def asI16 (u : Nat) : Int :=
  if u % 65536 < 32768 then (u % 65536 : Int) else (u % 65536 : Int) - 65536

/-- `ConstVec::insert`: `insert_or_get`, then fail with `ConstOverflow`
when the index does not fit in `u16`. -/
def constVecInsert (consts : List Obj) (obj : Obj) :
    Except Err (List Obj × Nat) :=
  let (cs, idx) := insertOrGet consts obj
  if idx < 65536 then .ok (cs, idx) else .error .constOverflow

/-- `ConstVec::insert_lambda`: unconditionally push the function object,
then fail with `ConstOverflow` when the new index does not fit in
`u16`; it never deduplicates. -/
def insertLambda (consts : List Obj) (fnObj : Obj) :
    Except Err (List Obj × Nat) :=
  let cs := consts ++ [fnObj]
  if consts.length < 65536 then .ok (cs, consts.length)
  else .error .constOverflow

/-! ## Environment

`Environment` holds the global variable map, the function bindings
(delivered via symbol slots in the source; the symbol table is an
external collaborator, so the function cells are modelled as a map from
symbol name to object), and the macro call stack. -/

/-- The mutable environment.  `vars` and `funcs` are association lists
with the most recent binding first. -/
structure Env where
  vars : List (String × Obj)
  funcs : List (String × Obj)
  macroStack : List String
  deriving Repr

/-- Modelled from the spec: `crate::data::symbol_function` (the `data`
module is absent from the sources); it reads the symbol's function cell,
`nil` when unbound. -/
def symbolFunction (env : Env) (name : String) : Obj :=
  match env.funcs.lookup name with
  | some o => o
  | none => .nil

/-- Modelled from the spec: `crate::data::set_global_function` (the `data`
module is absent from the sources); it overwrites the symbol's function
cell. -/
def setGlobalFunction (env : Env) (name : String) (d : Obj) : Env :=
  { env with funcs := (name, d) :: env.funcs }

/-- Modelled from the spec: `crate::data::set` (the `data` module is
absent from the sources); it stores a value into the symbol's global
value slot. -/
def envSet (env : Env) (name : String) (v : Obj) : Env :=
  { env with vars := (name, v) :: env.vars }

/-- A host subroutine implementation table: the entry points
`fn(args, env, arena) → Result<object>` of the registered built-ins,
which are external collaborators of the core. -/
def SubrImpl : Type :=
  String → List Obj → Env → Except Err (Obj × Env)

/-! ## Interpreter data model (`src/unused/bytecode.rs`) -/

/-- A call frame: the instruction pointer (position into the opcode
vector), the executing expression's code and constants, and the stack
index at which the frame starts. -/
structure Frame where
  codes : List Code
  consts : List Obj
  pos : Nat
  start : Nat
  deriving Repr

/-- The interpreter state (`Routine`): operand stack (top at the end of
the list), the stack of outer call frames (innermost first), and the
current frame. -/
structure Routine where
  stack : List Obj
  frames : List Frame
  frame : Frame
  deriving Repr

/-- Result of one iteration of the dispatch loop: the program's value on
`Ret` with no outer frame, otherwise the successor state. -/
inductive StepRes where
  | done (v : Obj) (env : Env)
  | next (r : Routine) (env : Env)

/-- `CallFrame::get_const`. -/
def getConst (f : Frame) (i : Nat) : Except Err Obj :=
  match f.consts.get? i with
  | some o => .ok o
  | none => .error .invalidConstIndex

/-- `LispStack::push_ref`: push `stack[len − 1 − i]`. -/
def pushRef (stack : List Obj) (i : Nat) : Except Err (List Obj) :=
  if i < stack.length then
    .ok (stack ++ [stack.getD (stack.length - (i + 1)) .nil])
  else .error .stackUnderflow

/-- `LispStack::set_ref`: `swap_remove(from_end(i))` — move the top into
slot `len − 1 − i` and drop the top. -/
def setRef (stack : List Obj) (i : Nat) : Except Err (List Obj) :=
  if i < stack.length then
    .ok ((stack.set (stack.length - (i + 1)) (stack.getLast?.getD .nil)).dropLast)
  else .error .stackUnderflow

/-- `LispStack::ref_at`: read `stack[len − 1 − i]`. -/
def refAt (stack : List Obj) (i : Nat) : Except Err Obj :=
  if i < stack.length then .ok (stack.getD (stack.length - (i + 1)) .nil)
  else .error .stackUnderflow

/-- `slice_into_list` from `src/fns.rs`: fold the slice from the end onto
the tail (`nil` when absent), producing a proper list. -/
def sliceIntoList (slice : List Obj) (tail : Option Obj) : Obj :=
  slice.foldr (fun obj acc => Obj.cons obj acc) (tail.getD .nil)

/-- Modelled from the spec: `FnArgs::num_of_fill_args` (the object module
holding it is absent from the sources).  Raise `ArgCount` when `n <
required` or when `rest` is unset and `n > required + optional`;
otherwise the number of `nil` fill slots, `(required + optional) − n`
saturating at zero. -/
def numOfFillArgs (fa : FnArgs) (args : Nat) : Except Err Nat :=
  if args < fa.required then .error (.argCount fa.required args)
  else if !fa.rest && fa.required + fa.optional < args then
    .error (.argCount (fa.required + fa.optional) args)
  else .ok (fa.required + fa.optional - args)

/-- `FnArgs::rest_args_start`, modelled with `num_of_fill_args`:
`required + optional`. -/
def restArgsStart (fa : FnArgs) : Nat :=
  fa.required + fa.optional

/-- `Routine::prepare_lisp_args`: fill missing optionals with `nil`,
collect `&rest` overflow into a list (or push an explicit `nil` for the
rest slot), returning the new stack and the adjusted argument count. -/
def prepareLispArgs (stack : List Obj) (fa : FnArgs) (argCnt : Nat) :
    Except Err (List Obj × Nat) := do
  let fillArgs ← numOfFillArgs fa argCnt
  let stack := stack ++ List.replicate fillArgs Obj.nil
  let totalArgs := argCnt + fillArgs
  let restSize := totalArgs - restArgsStart fa
  if restSize > 0 then
    let slice := stack.drop (stack.length - restSize)
    let list := sliceIntoList slice none
    let i := stack.length - restSize
    .ok ((stack.set i list).take (i + 1), totalArgs - restSize + 1)
  else if fa.rest then
    .ok (stack ++ [Obj.nil], totalArgs + 1)
  else
    .ok (stack, totalArgs)

/-- The shapes a symbol's function cell resolves to at call time
(`Callable` in the source). -/
inductive Callable where
  | lispFn (codes : List Code) (consts : List Obj) (args : FnArgs)
  | subrFn (name : String) (args : FnArgs)
  | macroCell (body : Obj)
  | consForm (c : Obj)

/-- Modelled from the spec: `Symbol::resolve_callable` (the symbol module
is absent from the sources); the function cell holds a compiled
function, a host subroutine, a macro cons `(macro . body)`, another cons
form, or nothing. -/
def resolveCallable (env : Env) (name : String) : Option Callable :=
  match symbolFunction env name with
  | .lispFn c k a => some (.lispFn c k a)
  | .subrFn n a => some (.subrFn n a)
  | .cons (.sym "macro") body => some (.macroCell body)
  | .cons a d => some (.consForm (.cons a d))
  | _ => none

/-- Fetch the operand byte at position `k` of the frame's code vector
(`Ip::next` used for an immediate). -/
def fetchByte (f : Frame) (k : Nat) : Except Err Nat :=
  match f.codes.get? k with
  | some (.byte b) => .ok (b % 256)
  | _ => .error .ipOutOfRange

/-- Fetch a two-byte operand starting at position `k`, decoded by
`Ip::next2` (little-endian, first byte low). -/
def fetchNext2 (f : Frame) (k : Nat) : Except Err Nat := do
  let b0 ← fetchByte f k
  let b1 ← fetchByte f (k + 1)
  .ok (next2 b0 b1)

/-- `Ip::jump`: displace the instruction pointer from `base` by the
operand interpreted as `i16`; the pointer must stay inside the code
range. -/
def ipJump (f : Frame) (base : Nat) (off : Nat) : Except Err Nat :=
  let t : Int := (base : Int) + asI16 off
  if 0 ≤ t ∧ t.toNat ≤ f.codes.length then .ok t.toNat else .error .ipOutOfRange

/-- Build the routine continuing at position `pos` with stack `stack`. -/
def contAt (r : Routine) (stack : List Obj) (pos : Nat) : Routine :=
  { r with stack := stack, frame := { r.frame with pos := pos } }

/-- `Routine::varref`: push the global value of the symbol at constant
index `idx`. -/
def doVarRef (r : Routine) (env : Env) (idx : Nat) (nextPos : Nat) :
    Except Err StepRes := do
  let c ← getConst r.frame idx
  match c with
  | .sym s =>
    match env.vars.lookup s with
    | some v => .ok (.next (contAt r (r.stack ++ [v]) nextPos) env)
    | none => .error (.voidVariable s)
  | _ => .error .typeError

/-- `Routine::varset`: pop the top and store it into the global slot of
the symbol at constant index `idx`. -/
def doVarSet (r : Routine) (env : Env) (idx : Nat) (nextPos : Nat) :
    Except Err StepRes := do
  let c ← getConst r.frame idx
  match c with
  | .sym s =>
    match r.stack.getLast? with
    | some v => .ok (.next (contAt r r.stack.dropLast nextPos) (envSet env s v))
    | none => .error .stackUnderflow
  | _ => .error .typeError

/-- Push `stack[len − 1 − idx]` and continue (`StackRef`). -/
def doStackRef (r : Routine) (env : Env) (idx : Nat) (nextPos : Nat) :
    Except Err StepRes := do
  let stack ← pushRef r.stack idx
  .ok (.next (contAt r stack nextPos) env)

/-- Overwrite `stack[len − 1 − idx]` with the popped top (`StackSet`). -/
def doStackSet (r : Routine) (env : Env) (idx : Nat) (nextPos : Nat) :
    Except Err StepRes := do
  let stack ← setRef r.stack idx
  .ok (.next (contAt r stack nextPos) env)

/-- Push the constant at index `idx` (`Constant`). -/
def doConstant (r : Routine) (env : Env) (idx : Nat) (nextPos : Nat) :
    Except Err StepRes := do
  let c ← getConst r.frame idx
  .ok (.next (contAt r (r.stack ++ [c]) nextPos) env)

/-- `Routine::call_lisp` inside the dispatch loop: adjust the arguments,
save the current frame and enter the callee's code. -/
def doCallLisp (r : Routine) (env : Env) (codes : List Code)
    (consts : List Obj) (fa : FnArgs) (argCnt : Nat) (nextPos : Nat) :
    Except Err StepRes := do
  let (stack, totalArgs) ← prepareLispArgs r.stack fa argCnt
  let savedFrame := { r.frame with pos := nextPos }
  let tmp := stack.length - (totalArgs + 1)
  .ok (.next { stack := stack, frames := savedFrame :: r.frames,
               frame := { codes := codes, consts := consts, pos := 0, start := tmp } } env)

/-- `Routine::call_subr`: fill optionals, call the host entry point on a
slice of the stack and write the result in place of the call. -/
def doCallSubr (subr : SubrImpl) (r : Routine) (env : Env) (name : String)
    (fa : FnArgs) (argCnt : Nat) (nextPos : Nat) : Except Err StepRes := do
  let fill ← numOfFillArgs fa argCnt
  let stack := r.stack ++ List.replicate fill Obj.nil
  let totalArgs := argCnt + fill
  let frameStartIdx := stack.length - (totalArgs + 1)
  let slice := stack.drop (stack.length - totalArgs)
  let (result, env) ← subr name slice env
  .ok (.next (contAt r ((stack.set frameStartIdx result).take (frameStartIdx + 1)) nextPos) env)

/-- `Routine::call`: the slot `arg_cnt` below the top must hold a symbol;
resolve its function cell and dispatch on its shape. -/
def doCall (subr : SubrImpl) (r : Routine) (env : Env) (argCnt : Nat)
    (nextPos : Nat) : Except Err StepRes := do
  let fnSlot ← refAt r.stack argCnt
  match fnSlot with
  | .sym s =>
    match resolveCallable env s with
    | some (.lispFn codes consts fa) => doCallLisp r env codes consts fa argCnt nextPos
    | some (.subrFn name fa) => doCallSubr subr r env name fa argCnt nextPos
    | some (.macroCell _) => .error (.macroCallAtRuntime s)
    | some (.consForm _) =>
      -- `Callable::Cons` delegates to `crate::interpreter::call`, the
      -- tree-walking interpreter, an external collaborator absent from
      -- the sources.
      .error .consDispatchUnsupported
    | none => .error (.voidFunction s)
  | _ => .error .typeError

/-- One iteration of the fetch–decode–execute loop of `Routine::run`. -/
def runStep (subr : SubrImpl) (r : Routine) (env : Env) :
    Except Err StepRes := do
  let pos := r.frame.pos
  match r.frame.codes.get? pos with
  | none => .error .ipOutOfRange
  | some (.byte _) => .error .unknownOpcode
  | some (.op o) =>
    match o with
    | .StackRef0 => doStackRef r env 0 (pos + 1)
    | .StackRef1 => doStackRef r env 1 (pos + 1)
    | .StackRef2 => doStackRef r env 2 (pos + 1)
    | .StackRef3 => doStackRef r env 3 (pos + 1)
    | .StackRef4 => doStackRef r env 4 (pos + 1)
    | .StackRef5 => doStackRef r env 5 (pos + 1)
    | .StackRefN => do
      let idx ← fetchByte r.frame (pos + 1)
      doStackRef r env idx (pos + 2)
    | .StackRefN2 => do
      let idx ← fetchNext2 r.frame (pos + 1)
      doStackRef r env idx (pos + 3)
    | .StackSet0 => doStackSet r env 0 (pos + 1)
    | .StackSet1 => doStackSet r env 1 (pos + 1)
    | .StackSet2 => doStackSet r env 2 (pos + 1)
    | .StackSet3 => doStackSet r env 3 (pos + 1)
    | .StackSet4 => doStackSet r env 4 (pos + 1)
    | .StackSet5 => doStackSet r env 5 (pos + 1)
    | .StackSetN => do
      let idx ← fetchByte r.frame (pos + 1)
      doStackSet r env idx (pos + 2)
    | .StackSetN2 => do
      let idx ← fetchNext2 r.frame (pos + 1)
      doStackSet r env idx (pos + 3)
    | .Constant0 => doConstant r env 0 (pos + 1)
    | .Constant1 => doConstant r env 1 (pos + 1)
    | .Constant2 => doConstant r env 2 (pos + 1)
    | .Constant3 => doConstant r env 3 (pos + 1)
    | .Constant4 => doConstant r env 4 (pos + 1)
    | .Constant5 => doConstant r env 5 (pos + 1)
    | .ConstantN => do
      let idx ← fetchByte r.frame (pos + 1)
      doConstant r env idx (pos + 2)
    | .ConstantN2 => do
      let idx ← fetchNext2 r.frame (pos + 1)
      doConstant r env idx (pos + 3)
    | .VarRef0 => doVarRef r env 0 (pos + 1)
    | .VarRef1 => doVarRef r env 1 (pos + 1)
    | .VarRef2 => doVarRef r env 2 (pos + 1)
    | .VarRef3 => doVarRef r env 3 (pos + 1)
    | .VarRef4 => doVarRef r env 4 (pos + 1)
    | .VarRef5 => doVarRef r env 5 (pos + 1)
    | .VarRefN => do
      let idx ← fetchByte r.frame (pos + 1)
      doVarRef r env idx (pos + 2)
    | .VarRefN2 => do
      let idx ← fetchNext2 r.frame (pos + 1)
      doVarRef r env idx (pos + 3)
    | .VarSet0 => doVarSet r env 0 (pos + 1)
    | .VarSet1 => doVarSet r env 1 (pos + 1)
    | .VarSet2 => doVarSet r env 2 (pos + 1)
    | .VarSet3 => doVarSet r env 3 (pos + 1)
    | .VarSet4 => doVarSet r env 4 (pos + 1)
    | .VarSet5 => doVarSet r env 5 (pos + 1)
    | .VarSetN => do
      let idx ← fetchByte r.frame (pos + 1)
      doVarSet r env idx (pos + 2)
    | .VarSetN2 => do
      let idx ← fetchNext2 r.frame (pos + 1)
      doVarSet r env idx (pos + 3)
    | .Call0 => doCall subr r env 0 (pos + 1)
    | .Call1 => doCall subr r env 1 (pos + 1)
    | .Call2 => doCall subr r env 2 (pos + 1)
    | .Call3 => doCall subr r env 3 (pos + 1)
    | .Call4 => doCall subr r env 4 (pos + 1)
    | .Call5 => doCall subr r env 5 (pos + 1)
    | .CallN => do
      let idx ← fetchByte r.frame (pos + 1)
      doCall subr r env idx (pos + 2)
    | .CallN2 => do
      let idx ← fetchNext2 r.frame (pos + 1)
      doCall subr r env idx (pos + 3)
    | .Discard =>
      .ok (.next (contAt r r.stack.dropLast (pos + 1)) env)
    | .DiscardN => do
      let num ← fetchByte r.frame (pos + 1)
      .ok (.next (contAt r (r.stack.take (r.stack.length - num)) (pos + 2)) env)
    | .DiscardNKeepTOS => do
      match r.stack.getLast? with
      | none => .error .stackUnderflow
      | some tos => do
        let num ← fetchByte r.frame (pos + 1)
        let stack := r.stack.dropLast
        .ok (.next (contAt r (stack.take (stack.length - num) ++ [tos]) (pos + 2)) env)
    | .Duplicate =>
      match r.stack.getLast? with
      | none => .error .stackUnderflow
      | some v => .ok (.next (contAt r (r.stack ++ [v]) (pos + 1)) env)
    | .Jump => do
      let off ← fetchNext2 r.frame (pos + 1)
      let newPos ← ipJump r.frame (pos + 3) off
      .ok (.next (contAt r r.stack newPos) env)
    | .JumpNil => do
      match r.stack.getLast? with
      | none => .error .stackUnderflow
      | some cond => do
        let off ← fetchNext2 r.frame (pos + 1)
        if cond.beq .nil then
          let newPos ← ipJump r.frame (pos + 3) off
          .ok (.next (contAt r r.stack.dropLast newPos) env)
        else
          .ok (.next (contAt r r.stack.dropLast (pos + 3)) env)
    | .JumpNotNil => do
      match r.stack.getLast? with
      | none => .error .stackUnderflow
      | some cond => do
        let off ← fetchNext2 r.frame (pos + 1)
        if cond.beq .nil then
          .ok (.next (contAt r r.stack.dropLast (pos + 3)) env)
        else
          let newPos ← ipJump r.frame (pos + 3) off
          .ok (.next (contAt r r.stack.dropLast newPos) env)
    | .JumpNilElsePop => do
      match r.stack.getLast? with
      | none => .error .stackUnderflow
      | some cond => do
        let off ← fetchNext2 r.frame (pos + 1)
        if cond.beq .nil then
          let newPos ← ipJump r.frame (pos + 3) off
          .ok (.next (contAt r r.stack newPos) env)
        else
          .ok (.next (contAt r r.stack.dropLast (pos + 3)) env)
    | .JumpNotNilElsePop => do
      match r.stack.getLast? with
      | none => .error .stackUnderflow
      | some cond => do
        let off ← fetchNext2 r.frame (pos + 1)
        if cond.beq .nil then
          .ok (.next (contAt r r.stack.dropLast (pos + 3)) env)
        else
          let newPos ← ipJump r.frame (pos + 3) off
          .ok (.next (contAt r r.stack newPos) env)
    | .Ret =>
      match r.frames with
      | [] =>
        match r.stack.getLast? with
        | some v => .ok (.done v env)
        | none => .error .stackUnderflow
      | f :: fs =>
        match r.stack.getLast? with
        | none => .error .stackUnderflow
        | some v =>
          let stack := r.stack.dropLast
          if r.frame.start < stack.length then
            .ok (.next { stack := (stack.set r.frame.start v).take (r.frame.start + 1),
                         frames := fs, frame := f } env)
          else .error .stackUnderflow
    | .Unknown => .error .unknownOpcode

/-- `Routine::run`, with fuel for the unbounded dispatch loop. -/
def run (subr : SubrImpl) : Nat → Routine → Env → Except Err (Obj × Env)
  | 0, _, _ => .error .fuel
  | fuel + 1, r, env =>
    match runStep subr r env with
    | .error e => .error e
    | .ok (.done v env') => .ok (v, env')
    | .ok (.next r' env') => run subr fuel r' env'

/-- `call_lisp` from `src/unused/bytecode.rs` (referenced as
`eval::call_lisp` by the compiler): run a compiled function on an
argument vector in a fresh routine. -/
def callLisp (subr : SubrImpl) (fuel : Nat) (codes : List Code)
    (consts : List Obj) (fa : FnArgs) (args : List Obj) (env : Env) :
    Except Err (Obj × Env) := do
  let (stack, _) ← prepareLispArgs args fa args.length
  run subr fuel { stack := stack, frames := [],
                  frame := { codes := codes, consts := consts, pos := 0, start := 0 } } env

/-- Modelled from the spec: `eval::call_subr` (the `eval` module is
absent from the sources); invoke the host subroutine entry point on the
argument vector after arity filling. -/
def callSubr (subr : SubrImpl) (name : String) (fa : FnArgs)
    (args : List Obj) (env : Env) : Except Err (Obj × Env) := do
  let fill ← numOfFillArgs fa args.length
  subr name (args ++ List.replicate fill Obj.nil) env

/-! ## Code emission (`CodeVec` impl block in `src/compile.rs`) -/

/-- `CodeVec::push_op`. -/
def pushOp (cv : CodeVec) (o : OpCode) : CodeVec :=
  cv ++ [.op o]

/-- `CodeVec::push_op_n`: opcode plus one operand byte. -/
def pushOpN (cv : CodeVec) (o : OpCode) (arg : Nat) : CodeVec :=
  cv ++ [.op o, .byte (arg % 256)]

/-- `CodeVec::push_op_n2`: opcode plus a 16-bit operand, high byte
first. -/
def pushOpN2 (cv : CodeVec) (o : OpCode) (arg : Nat) : CodeVec :=
  cv ++ [.op o, .byte ((arg / 256) % 256), .byte (arg % 256)]

/-- `CodeVec::push_jump_placeholder`: two zero bytes, returning their
position. -/
def pushJumpPlaceholder (cv : CodeVec) : CodeVec × Nat :=
  (cv ++ [.byte 0, .byte 0], cv.length)

/-- `CodeVec::set_jump_placeholder`: overwrite the placeholder at
`index` with `len − index − 2` computed by wrapping `as i16` casts and
split into two big-endian bytes (`offset >> 8` then `offset`). -/
def setJumpPlaceholder (cv : CodeVec) (index : Nat) : CodeVec :=
  let b : Nat := (((cv.length : Int) - index - 2) % 65536).toNat
  (cv.set index (.byte (b / 256))).set (index + 1) (.byte (b % 256))

/-- `CodeVec::push_back_jump`: append the displacement
`index − len − 2` (wrapping `as i16` casts), high byte first. -/
def pushBackJump (cv : CodeVec) (index : Nat) : CodeVec :=
  let b : Nat := (((index : Int) - cv.length - 2) % 65536).toNat
  cv ++ [.byte (b / 256), .byte (b % 256)]

/-- The `emit_op!` macro: inline immediates 0–5 into the opcode, one
operand byte when the index fits `u8`, two bytes otherwise. -/
def emitOp (cv : CodeVec) (o0 o1 o2 o3 o4 o5 oN oN2 : OpCode) (idx : Nat) :
    CodeVec :=
  match idx with
  | 0 => pushOp cv o0
  | 1 => pushOp cv o1
  | 2 => pushOp cv o2
  | 3 => pushOp cv o3
  | 4 => pushOp cv o4
  | 5 => pushOp cv o5
  | _ => if idx ≤ 255 then pushOpN cv oN idx else pushOpN2 cv oN2 idx

/-- `CodeVec::emit_const`. -/
def emitConst (cv : CodeVec) (idx : Nat) : CodeVec :=
  emitOp cv .Constant0 .Constant1 .Constant2 .Constant3 .Constant4
    .Constant5 .ConstantN .ConstantN2 idx

/-- `CodeVec::emit_varref`. -/
def emitVarRef (cv : CodeVec) (idx : Nat) : CodeVec :=
  emitOp cv .VarRef0 .VarRef1 .VarRef2 .VarRef3 .VarRef4 .VarRef5
    .VarRefN .VarRefN2 idx

/-- `CodeVec::emit_varset`. -/
def emitVarSet (cv : CodeVec) (idx : Nat) : CodeVec :=
  emitOp cv .VarSet0 .VarSet1 .VarSet2 .VarSet3 .VarSet4 .VarSet5
    .VarSetN .VarSetN2 idx

/-- `CodeVec::emit_call`. -/
def emitCall (cv : CodeVec) (idx : Nat) : CodeVec :=
  emitOp cv .Call0 .Call1 .Call2 .Call3 .Call4 .Call5 .CallN .CallN2 idx

/-- `CodeVec::emit_stack_ref`. -/
def emitStackRef (cv : CodeVec) (idx : Nat) : CodeVec :=
  emitOp cv .StackRef0 .StackRef1 .StackRef2 .StackRef3 .StackRef4
    .StackRef5 .StackRefN .StackRefN2 idx

/-- `CodeVec::emit_stack_set`. -/
def emitStackSet (cv : CodeVec) (idx : Nat) : CodeVec :=
  emitOp cv .StackSet0 .StackSet1 .StackSet2 .StackSet3 .StackSet4
    .StackSet5 .StackSetN .StackSetN2 idx

/-! ## Compiler state and stateless helpers -/

/-- `into_iter` composed with full iteration of the cons chain: the
elements of a (proper) list object, a type error on any non-list object
or dotted tail. -/
def listElems : Obj → Except Err (List Obj)
  | .nil => .ok []
  | .cons a d => do
    let rest ← listElems d
    .ok (a :: rest)
  | _ => .error .typeError

/-- `Object::as_symbol` / `TryFrom<Object> for Symbol`. -/
def asSymbol : Obj → Except Err String
  | .sym s => .ok s
  | _ => .error .typeError

/-- The `Compiler` struct: emitted code, constant pool, the virtual
stack of `Option<Symbol>` slots, and the shared environment. -/
structure CompSt where
  codes : CodeVec
  constants : List Obj
  vars : List (Option String)
  env : Env
  deriving Repr

/-- `Compiler::const_ref`: mirror a pushed slot, intern the constant and
emit a `Constant` reference. -/
def constRef (st : CompSt) (obj : Obj) (varRef : Option String) :
    Except Err CompSt := do
  let vars := st.vars ++ [varRef]
  let (consts, idx) ← constVecInsert st.constants obj
  .ok { st with vars := vars, constants := consts,
                codes := emitConst st.codes idx }

/-- `Compiler::add_const_lambda`: like `const_ref` but the constant is a
freshly compiled function added with `insert_lambda`. -/
def addConstLambda (st : CompSt) (fnObj : Obj) : Except Err CompSt := do
  let vars := st.vars ++ [none]
  let (consts, idx) ← insertLambda st.constants fnObj
  .ok { st with vars := vars, constants := consts,
                codes := emitConst st.codes idx }

/-- `Compiler::stack_ref`: emit a `StackRef` at depth
`vars.len − idx − 1` and mirror the pushed slot. -/
def stackRefC (st : CompSt) (idx : Nat) (varRef : String) :
    Except Err CompSt :=
  let x := st.vars.length - idx - 1
  if x < 65536 then
    .ok { st with vars := st.vars ++ [some varRef],
                  codes := emitStackRef st.codes x }
  else .error .stackSizeOverflow

/-- `Compiler::stack_set`: emit a `StackSet` at depth
`vars.len − idx − 1` and mirror the popped slot. -/
def stackSetC (st : CompSt) (idx : Nat) : Except Err CompSt :=
  let x := st.vars.length - idx - 1
  if x < 65536 then
    .ok { st with vars := st.vars.dropLast,
                  codes := emitStackSet st.codes x }
  else .error .stackSizeOverflow

/-- `Compiler::var_set`. -/
def varSetC (st : CompSt) (idx : Nat) : CompSt :=
  { st with codes := emitVarSet st.codes idx, vars := st.vars.dropLast }

/-- `Compiler::discard`. -/
def discardC (st : CompSt) : CompSt :=
  { st with codes := pushOp st.codes .Discard, vars := st.vars.dropLast }

/-- `Compiler::duplicate`. -/
def duplicateC (st : CompSt) : CompSt :=
  { st with codes := pushOp st.codes .Duplicate, vars := st.vars ++ [none] }

/-- `Compiler::jump`: mirror the conditional pop, emit the jump opcode
and a placeholder, returning the patch target. -/
def jumpEmit (st : CompSt) (code : OpCode) : CompSt × (Nat × OpCode) :=
  let vars := match code with
    | .JumpNil | .JumpNotNil | .JumpNilElsePop | .JumpNotNilElsePop =>
      st.vars.dropLast
    | _ => st.vars
  let codes := pushOp st.codes code
  ({ st with vars := vars, codes := codes ++ [.byte 0, .byte 0] },
   (codes.length, code))

/-- `Compiler::set_jump_target`: patch the placeholder; for the
"else pop" jumps the non-popped conditional is re-mirrored. -/
def setJumpTarget (st : CompSt) (target : Nat × OpCode) : CompSt :=
  let vars := match target.2 with
    | .JumpNilElsePop | .JumpNotNilElsePop => st.vars ++ [none]
    | _ => st.vars
  { st with vars := vars, codes := setJumpPlaceholder st.codes target.1 }

/-- `Vec::iter().rposition`: rightmost index of a virtual-stack slot
holding the symbol. -/
def rPosition (vars : List (Option String)) (sym : String) : Option Nat :=
  match vars.reverse.findIdx? (fun x => x == some sym) with
  | some i => some (vars.length - 1 - i)
  | none => none

/-- `Compiler::variable_reference`: lexically bound names become
`StackRef`s, others a constant plus `VarRef`. -/
def variableReference (st : CompSt) (sym : String) : Except Err CompSt :=
  match rPosition st.vars sym with
  | some idx => stackRefC st idx sym
  | none => do
    let (consts, idx) ← constVecInsert st.constants (.sym sym)
    .ok { st with constants := consts, codes := emitVarRef st.codes idx,
                  vars := st.vars ++ [none] }

/-- `Compiler::quote`: a single argument becomes a constant reference,
any other count is an `ArgCount` error. -/
def quoteC (st : CompSt) (value : Obj) : Except Err CompSt := do
  let forms ← listElems value
  match forms with
  | [x] => constRef st x none
  | xs => .error (.argCount 1 xs.length)

/-- `Compiler::let_bind_nil`. -/
def letBindNil (st : CompSt) (sym : String) : Except Err CompSt :=
  constRef st .nil (some sym)

/-- Modelled from the spec: `LispFn::default()` (object module absent
from the sources), "a stub that returns nil". -/
def defaultLispFn : Obj :=
  .lispFn [.op .Constant0, .op .Ret] [.nil] ⟨0, 0, false⟩

/-- `parse_fn_binding`'s traversal: `&optional` switches the counter,
`&rest` greedily takes exactly one name (none at all is accepted and
leaves `rest` unset), anything else is counted and collected. -/
def parseFnBindingAux : List Obj → Nat → Nat → List String → Bool →
    Except Err (Nat × Nat × Bool × List String)
  | [], req, opt, args, _ => .ok (req, opt, false, args)
  | b :: rest, req, opt, args, inOpt => do
    let s ← asSymbol b
    if s = "&optional" then parseFnBindingAux rest req opt args true
    else if s = "&rest" then
      match rest with
      | [] => .ok (req, opt, false, args)
      | last :: rest2 => do
        let ls ← asSymbol last
        match rest2 with
        | [] => .ok (req, opt, true, args ++ [ls])
        | _ => .error .multipleRestArgs
    else
      if inOpt then parseFnBindingAux rest req (opt + 1) (args ++ [s]) true
      else parseFnBindingAux rest (req + 1) opt (args ++ [s]) false

/-- `parse_fn_binding`: split a lambda parameter list into
`(required, optional, rest, names)`. -/
def parseFnBinding (bindings : Obj) :
    Except Err (Nat × Nat × Bool × List String) := do
  let elems ← listElems bindings
  parseFnBindingAux elems 0 0 [] false

/-- The compiler's output (`Expression`). -/
structure Expression where
  opCodes : CodeVec
  constants : List Obj
  deriving Repr

/-! ## The recursive compiler

The mutually recursive compile functions of `src/compile.rs`.  `fuel`
bounds the recursion depth (macro expansion feeds arbitrary returned
forms back into `compile_form`, so the source recursion is unbounded);
every mutual call decreases it by one. -/

mutual

/-- `Compiler::compile_form`: dispatch on the shape of the object. -/
def compileForm (subr : SubrImpl) : Nat → CompSt → Obj → Except Err CompSt
  | 0, _, _ => .error .fuel
  | fuel + 1, st, obj =>
    match obj with
    | .cons car cdr => dispatchSpecialForm subr fuel st car cdr
    | .sym s => variableReference st s
    | x => constRef st x none
  termination_by structural fuel => fuel


/-- `Compiler::dispatch_special_form`: the special-form table keyed by
the head symbol's name. -/
def dispatchSpecialForm (subr : SubrImpl) :
    Nat → CompSt → Obj → Obj → Except Err CompSt
  | 0, _, _, _ => .error .fuel
  | fuel + 1, st, car, forms => do
    let name ← asSymbol car
    match name with
    | "lambda" => compileLambdaDef subr fuel st forms
    | "while" => compileLoop subr fuel st forms
    | "quote" => quoteC st forms
    | "function" => quoteC st forms
    | "progn" => progn subr fuel st forms
    | "setq" => setqC subr fuel st forms
    | "defvar" => compileDefvar subr fuel st forms
    | "cond" => compileCond subr fuel st forms
    | "let" => compileLet subr fuel st forms true
    | "let*" => compileLet subr fuel st forms false
    | "if" => compileIf subr fuel st forms
    | _ => compileFuncall subr fuel st name forms
  termination_by structural fuel => fuel


/-- `Compiler::progn`. -/
def progn (subr : SubrImpl) : Nat → CompSt → Obj → Except Err CompSt
  | 0, _, _ => .error .fuel
  | fuel + 1, st, forms => do
    let l ← listElems forms
    implicitProgn subr fuel st l
  termination_by structural fuel => fuel


/-- `Compiler::implicit_progn`: an empty body pushes `nil`; otherwise
the first form, then `Discard` before each subsequent form. -/
def implicitProgn (subr : SubrImpl) :
    Nat → CompSt → List Obj → Except Err CompSt
  | 0, _, _ => .error .fuel
  | _ + 1, st, [] => constRef st .nil none
  | fuel + 1, st, f :: rest => do
    let st ← compileForm subr fuel st f
    prognRest subr fuel st rest
  termination_by structural fuel => fuel


/-- The tail loop of `implicit_progn`. -/
def prognRest (subr : SubrImpl) :
    Nat → CompSt → List Obj → Except Err CompSt
  | 0, _, _ => .error .fuel
  | _ + 1, st, [] => .ok st
  | fuel + 1, st, f :: rest => do
    let st ← compileForm subr fuel (discardC st) f
    prognRest subr fuel st rest
  termination_by structural fuel => fuel


/-- `Compiler::compile_let`: compile the bindings, the body, then drop
the bindings with `DiscardNKeepTOS` while preserving the result. -/
def compileLet (subr : SubrImpl) :
    Nat → CompSt → Obj → Bool → Except Err CompSt
  | 0, _, _, _ => .error .fuel
  | fuel + 1, st, form, parallel => do
    let iter ← listElems form
    match iter with
    | [] => .error (.argCount 1 0)
    | bindings :: body => do
      let (numBindingForms, st) ← letBind subr fuel st bindings parallel
      let st ← implicitProgn subr fuel st body
      if numBindingForms > 0 then
        match st.vars.getLast? with
        | none => .error .stackUnderflow
        | some last =>
          let vars := st.vars.dropLast
          .ok { st with
                codes := pushOpN st.codes .DiscardNKeepTOS numBindingForms,
                vars := vars.take (vars.length - numBindingForms) ++ [last] }
      else .ok st
  termination_by structural fuel => fuel


/-- `Compiler::let_bind`: process each binding form; in parallel (`let`)
mode the bound names replace the top mirror slots only after all value
forms are compiled. -/
def letBind (subr : SubrImpl) :
    Nat → CompSt → Obj → Bool → Except Err (Nat × CompSt)
  | 0, _, _, _ => .error .fuel
  | fuel + 1, st, obj, parallel => do
    let bindings ← listElems obj
    letBindLoop subr fuel st bindings parallel 0 []
  termination_by structural fuel => fuel


/-- The binding loop of `let_bind`, carrying the pending parallel
renames. -/
def letBindLoop (subr : SubrImpl) :
    Nat → CompSt → List Obj → Bool → Nat → List (Option String) →
    Except Err (Nat × CompSt)
  | 0, _, _, _, _, _ => .error .fuel
  | _ + 1, st, [], parallel, len, letBindings =>
    if parallel then
      let bindingStart := st.vars.length - letBindings.length
      .ok (len, { st with vars := st.vars.take bindingStart ++ letBindings })
    else .ok (len, st)
  | fuel + 1, st, binding :: rest, parallel, len, letBindings =>
    match binding with
    | .cons car cdr => do
      let (sym, st) ← letBindCall subr fuel st car cdr
      if parallel then
        letBindLoop subr fuel st rest parallel (len + 1)
          (letBindings ++ [some sym])
      else
        match st.vars.getLast? with
        | none => .error .stackUnderflow
        | some _ =>
          letBindLoop subr fuel
            { st with vars := st.vars.dropLast ++ [some sym] }
            rest parallel (len + 1) letBindings
    | .sym s => do
      let st ← letBindNil st s
      letBindLoop subr fuel st rest parallel (len + 1) letBindings
    | _ => .error .typeError
  termination_by structural fuel => fuel


/-- `Compiler::let_bind_call`: compile the single value form (or `nil`),
reject extra forms with `LetValueCount`, and yield the bound name. -/
def letBindCall (subr : SubrImpl) :
    Nat → CompSt → Obj → Obj → Except Err (String × CompSt)
  | 0, _, _, _ => .error .fuel
  | fuel + 1, st, car, cdr => do
    let iter ← listElems cdr
    let st ← match iter with
      | [] => constRef st .nil none
      | v :: _ => compileForm subr fuel st v
    let rest := iter.length - 1
    if rest = 0 then do
      let sym ← asSymbol car
      .ok (sym, st)
    else .error (.letValueCount (rest + 1))
  termination_by structural fuel => fuel


/-- `Compiler::setq`: an empty form is `ArgCount(2, 0)`; otherwise the
pair loop. -/
def setqC (subr : SubrImpl) : Nat → CompSt → Obj → Except Err CompSt
  | 0, _, _ => .error .fuel
  | fuel + 1, st, obj => do
    let forms ← listElems obj
    if forms.isEmpty then .error (.argCount 2 0)
    else setqLoop subr fuel st forms 0
  termination_by structural fuel => fuel


/-- The variable/value pair loop of `setq`: compile the value, duplicate
it for the last pair, then `StackSet` a lexical binding or `VarSet` a
global one; an unpaired trailing variable is an `ArgCount` error. -/
def setqLoop (subr : SubrImpl) :
    Nat → CompSt → List Obj → Nat → Except Err CompSt
  | 0, _, _, _ => .error .fuel
  | _ + 1, st, [], _ => .ok st
  | _ + 1, _, [_], processed => .error (.argCount (processed + 2) (processed + 1))
  | fuel + 1, st, v :: val :: rest, processed => do
    let st ← compileForm subr fuel st val
    let st := if rest.isEmpty then duplicateC st else st
    let sym ← asSymbol v
    match rPosition st.vars sym with
    | some idx => do
      let st ← stackSetC st idx
      setqLoop subr fuel st rest (processed + 2)
    | none => do
      let (consts, idx) ← constVecInsert st.constants (.sym sym)
      setqLoop subr fuel (varSetC { st with constants := consts } idx)
        rest (processed + 2)
  termination_by structural fuel => fuel


/-- `Compiler::compile_defvar`. -/
def compileDefvar (subr : SubrImpl) : Nat → CompSt → Obj → Except Err CompSt
  | 0, _, _ => .error .fuel
  | fuel + 1, st, obj => do
    let iter ← listElems obj
    match iter with
    | [] => .error (.argCount 1 0)
    | x :: rest => do
      let sym ← asSymbol x
      let st ← match rest with
        | [] => constRef st .nil none
        | v :: _ => compileForm subr fuel st v
      let st := duplicateC st
      let (consts, idx) ← constVecInsert st.constants (.sym sym)
      .ok (varSetC { st with constants := consts } idx)
  termination_by structural fuel => fuel


/-- `Compiler::compile_if`: the two-argument form uses
`JumpNilElsePop`; with an else branch, `JumpNil` to it and `Jump` over
it. -/
def compileIf (subr : SubrImpl) : Nat → CompSt → Obj → Except Err CompSt
  | 0, _, _ => .error .fuel
  | fuel + 1, st, obj => do
    let forms ← listElems obj
    match forms with
    | [] => .error (.argCount 2 0)
    | [_] => .error (.argCount 2 1)
    | [test, thn] => do
      let st ← compileForm subr fuel st test
      let (st, target) := jumpEmit st .JumpNilElsePop
      let st ← compileForm subr fuel st thn
      .ok (setJumpTarget st target)
    | test :: thn :: els => do
      let st ← compileForm subr fuel st test
      let (st, elseTarget) := jumpEmit st .JumpNil
      let st ← compileForm subr fuel st thn
      let (st, endTarget) := jumpEmit st .Jump
      let st := setJumpTarget st elseTarget
      let st ← implicitProgn subr fuel st els
      .ok (setJumpTarget st endTarget)
  termination_by structural fuel => fuel


/-- `Compiler::compile_loop` (`while`): test, `JumpNilElsePop` to the
exit, body, `Discard`, back jump to the top. -/
def compileLoop (subr : SubrImpl) : Nat → CompSt → Obj → Except Err CompSt
  | 0, _, _ => .error .fuel
  | fuel + 1, st, obj => do
    let forms ← listElems obj
    match forms with
    | [] => .error (.argCount 1 0)
    | test :: body => do
      let top := st.codes.length
      let st ← compileForm subr fuel st test
      let (st, loopExit) := jumpEmit st .JumpNilElsePop
      let st ← implicitProgn subr fuel st body
      let st := discardC st
      let st := { st with codes := pushBackJump (pushOp st.codes .Jump) top }
      .ok (setJumpTarget st loopExit)
  termination_by structural fuel => fuel


/-- `Compiler::compile_lambda_def`: compile the lambda and push it as a
constant. -/
def compileLambdaDef (subr : SubrImpl) :
    Nat → CompSt → Obj → Except Err CompSt
  | 0, _, _ => .error .fuel
  | fuel + 1, st, obj => do
    let (fnObj, env) ← compileLambda subr fuel st.env obj
    addConstLambda { st with env := env } fnObj
  termination_by structural fuel => fuel


/-- `compile_lambda`: parse the parameter list and compile the body as a
fresh compiler whose virtual stack is the parameter names; an empty
parameter list or body yields the default function. -/
def compileLambda (subr : SubrImpl) :
    Nat → Env → Obj → Except Err (Obj × Env)
  | 0, _, _ => .error .fuel
  | fuel + 1, env, obj => do
    let iter ← listElems obj
    match iter with
    | [] => .ok (defaultLispFn, env)
    | bindings :: body => do
      let (required, optional, rest, args) ← parseFnBinding bindings
      if body.isEmpty then .ok (defaultLispFn, env)
      else do
        let st ← compileFuncBody subr fuel body (args.map some) env
        .ok (.lispFn st.codes st.constants
              ⟨required, optional, rest⟩, st.env)
  termination_by structural fuel => fuel


/-- `Compiler::compile_func_body`: fresh code and pool, implicit progn
of the body, final `Ret`, virtual stack cleared. -/
def compileFuncBody (subr : SubrImpl) :
    Nat → List Obj → List (Option String) → Env → Except Err CompSt
  | 0, _, _, _ => .error .fuel
  | fuel + 1, forms, vars, env => do
    let st : CompSt := { codes := [], constants := [], vars := vars, env := env }
    let st ← implicitProgn subr fuel st forms
    .ok { st with codes := pushOp st.codes .Ret, vars := [] }
  termination_by structural fuel => fuel


/-- `Compiler::compile_macro_call`: collect the unevaluated arguments,
then dispatch on the shape of the macro body; only the raw cons shape
consults `macro_callstack` before compiling and memoizing the lambda. -/
def compileMacroCall (subr : SubrImpl) :
    Nat → CompSt → String → Obj → Obj → Except Err (Obj × CompSt)
  | 0, _, _, _, _ => .error .fuel
  | fuel + 1, st, name, args, body => do
    let argList ← listElems args
    match body with
    | .lispFn c k fa => do
      let (res, env) ← callLisp subr fuel c k fa argList st.env
      .ok (res, { st with env := env })
    | .subrFn n fa => do
      let (res, env) ← callSubr subr n fa argList st.env
      .ok (res, { st with env := env })
    | .cons carB cdrB =>
      if st.env.macroStack.contains name then .error .macroRecursion
      else do
        let env1 := { st.env with macroStack := st.env.macroStack ++ [name] }
        let funcIdent ← asSymbol carB
        match funcIdent with
        | "lambda" => do
          let (fnObj, env2) ← compileLambda subr fuel env1 cdrB
          let env3 := { env2 with macroStack := env2.macroStack.dropLast }
          let env4 := setGlobalFunction env3 name (.cons (.sym "macro") fnObj)
          match fnObj with
          | .lispFn c k fa => do
            let (res, env5) ← callLisp subr fuel c k fa argList env4
            .ok (res, { st with env := env5 })
          | _ => .error .typeError
        | bad => .error (.invalidFunction bad)
    | _ => .error .invalidMacroType
  termination_by structural fuel => fuel


/-- `Compiler::compile_funcall`: a cons function cell is either a macro
call (car is the symbol `macro`) or silently skipped; any other cell
emits the head constant, the arguments, and a `Call`. -/
def compileFuncall (subr : SubrImpl) :
    Nat → CompSt → String → Obj → Except Err CompSt
  | 0, _, _, _ => .error .fuel
  | fuel + 1, st, name, args =>
    match symbolFunction st.env name with
    | .cons car cdr =>
      match car with
      | .sym s =>
        if s = "macro" then do
          let (form, st) ← compileMacroCall subr fuel st name args cdr
          compileForm subr fuel st form
        else .ok st
      | _ => .ok st
    | _ => do
      let st ← constRef st (.sym name) none
      let prevLen := st.vars.length
      let argList ← listElems args
      let (st, numArgs) ← compileArgsLoop subr fuel st argList 0
      let st := { st with codes := emitCall st.codes (numArgs % 65536) }
      .ok { st with vars := st.vars.take prevLen }
  termination_by structural fuel => fuel


/-- The argument loop of `compile_funcall`. -/
def compileArgsLoop (subr : SubrImpl) :
    Nat → CompSt → List Obj → Nat → Except Err (CompSt × Nat)
  | 0, _, _, _ => .error .fuel
  | _ + 1, st, [], n => .ok (st, n)
  | fuel + 1, st, a :: rest, n => do
    let st ← compileForm subr fuel st a
    compileArgsLoop subr fuel st rest (n + 1)
  termination_by structural fuel => fuel


/-- `Compiler::compile_cond`: empty cond pushes `nil`; otherwise compile
the clauses and patch every collected end target. -/
def compileCond (subr : SubrImpl) : Nat → CompSt → Obj → Except Err CompSt
  | 0, _, _ => .error .fuel
  | fuel + 1, st, obj => do
    let clauses ← listElems obj
    match clauses with
    | [] => constRef st .nil none
    | _ => do
      let (st, targets) ← condLoop subr fuel st clauses []
      .ok { st with
            codes := targets.foldl (fun cv t => setJumpPlaceholder cv t.1) st.codes }
  termination_by structural fuel => fuel


/-- The clause loop of `compile_cond`: the final clause uses the
always-yields-a-value variant. -/
def condLoop (subr : SubrImpl) :
    Nat → CompSt → List Obj → List (Nat × OpCode) →
    Except Err (CompSt × List (Nat × OpCode))
  | 0, _, _, _ => .error .fuel
  | _ + 1, st, [], targets => .ok (st, targets)
  | fuel + 1, st, [clause], targets =>
    compileLastCondClause subr fuel st clause targets
  | fuel + 1, st, clause :: rest, targets => do
    let (st, targets) ← compileCondClause subr fuel st clause targets
    condLoop subr fuel st rest targets
  termination_by structural fuel => fuel


/-- `Compiler::compile_cond_clause` (non-terminal position). -/
def compileCondClause (subr : SubrImpl) :
    Nat → CompSt → Obj → List (Nat × OpCode) →
    Except Err (CompSt × List (Nat × OpCode))
  | 0, _, _, _ => .error .fuel
  | fuel + 1, st, clause, targets => do
    let cond ← listElems clause
    match cond with
    | [] => .ok (st, targets)
    | [x] => do
      let st ← compileForm subr fuel st x
      let (st, target) := jumpEmit st .JumpNotNilElsePop
      .ok (st, targets ++ [target])
    | x :: rest => do
      let st ← compileForm subr fuel st x
      let (st, skipTarget) := jumpEmit st .JumpNil
      let st ← implicitProgn subr fuel st rest
      let st := { st with vars := st.vars.dropLast }
      let (st, takenTarget) := jumpEmit st .Jump
      let st := setJumpTarget st skipTarget
      .ok (st, targets ++ [takenTarget])
  termination_by structural fuel => fuel


/-- `Compiler::compile_last_cond_clause` (terminal position): always
leaves a value. -/
def compileLastCondClause (subr : SubrImpl) :
    Nat → CompSt → Obj → List (Nat × OpCode) →
    Except Err (CompSt × List (Nat × OpCode))
  | 0, _, _, _ => .error .fuel
  | fuel + 1, st, clause, targets => do
    let cond ← listElems clause
    match cond with
    | [] => do
      let st ← constRef st .nil none
      .ok (st, targets)
    | [x] => do
      let st ← compileForm subr fuel st x
      let (st, target) := jumpEmit st .JumpNotNilElsePop
      let st ← constRef st .nil none
      .ok (st, targets ++ [target])
    | x :: rest => do
      let st ← compileForm subr fuel st x
      let (st, target) := jumpEmit st .JumpNilElsePop
      let st ← implicitProgn subr fuel st rest
      .ok (st, targets ++ [target])
  termination_by structural fuel => fuel

end

/-- `compile`: compile a top-level form by wrapping it as a single-form
function body. -/
def compile (subr : SubrImpl) (fuel : Nat) (obj : Obj) (env : Env) :
    Except Err (Expression × Env) := do
  let st ← compileFuncBody subr fuel [obj] [] env
  .ok ({ opCodes := st.codes, constants := st.constants }, st.env)

/-! ## Concrete instances used by the theorems -/

/-- A host-subroutine table with no registered built-ins. -/
def noSubr : SubrImpl := fun n _ _ => .error (.voidFunction n)

/-- The default empty environment. -/
def emptyEnv : Env := { vars := [], funcs := [], macroStack := [] }

/-- An empty compiler state over an arbitrary environment. -/
def emptySt (env : Env) : CompSt :=
  { codes := [], constants := [], vars := [], env := env }

/-! ## Theorems for the claims -/

/-! ## Shared helper lemmas -/

/-- The argument loop of `compile_funcall` counts exactly the list of
argument forms. -/
lemma compileArgsLoop_count (subr : SubrImpl) (fuel : Nat) :
    ∀ (st : CompSt) (l : List Obj) (n : Nat) (st2 : CompSt) (n2 : Nat),
      compileArgsLoop subr fuel st l n = .ok (st2, n2) → n2 = n + l.length := by
  induction fuel with
  | zero =>
    intro st l n st2 n2 h
    simp only [compileArgsLoop] at h
    exact (Except.noConfusion h)
  | succ fuel ih =>
    intro st l n st2 n2 h
    cases l with
    | nil =>
      simp only [compileArgsLoop] at h
      rcases h with ⟨rfl, rfl⟩
      simp
    | cons a rest =>
      simp only [compileArgsLoop] at h
      cases hc : compileForm subr fuel st a with
      | error e =>
        rw [hc] at h
        simp only [bind, Except.bind] at h
        exact (Except.noConfusion h)
      | ok st1 =>
        rw [hc] at h
        simp only [bind, Except.bind] at h
        have := ih st1 rest (n + 1) st2 n2 h
        simp only [List.length_cons]
        omega

/-- The two bytes written by `set_jump_placeholder` at the placeholder
position: the wrapped displacement `len − index − 2` split high byte
first. -/
lemma setJumpPlaceholder_get (cv : CodeVec) (index : Nat)
    (h : index + 1 < cv.length) :
    (setJumpPlaceholder cv index).length = cv.length ∧
    (setJumpPlaceholder cv index)[index]?
      = some (.byte ((((cv.length : Int) - index - 2) % 65536).toNat / 256)) ∧
    (setJumpPlaceholder cv index)[index + 1]?
      = some (.byte ((((cv.length : Int) - index - 2) % 65536).toNat % 256)) := by
  simp only [setJumpPlaceholder]
  refine ⟨by simp, ?_, ?_⟩
  · rw [List.getElem?_set_ne (by omega), List.getElem?_set_eq_of_lt _ (by omega)]
  · rw [List.getElem?_set_eq_of_lt _ (by simp; omega)]

/-- Recombining the two bytes of a wrapped 16-bit displacement and
reading them as `i16` yields the displacement reduced into
`[-32768, 32767]` modulo `2 ^ 16`. -/
lemma asI16_split_bytes (d : Int) :
    asI16 ((d % 65536).toNat / 256 * 256 + (d % 65536).toNat % 256)
      = (d + 32768) % 65536 - 32768 := by
  rw [Nat.div_add_mod']
  unfold asI16
  omega

/-- The `i16` wrap is the identity exactly on values that fit. -/
lemma wrap_eq_self_iff (d : Int) :
    (d + 32768) % 65536 - 32768 = d ↔ -32768 ≤ d ∧ d ≤ 32767 := by
  omega

/-- The three conditional jump opcodes of claim C7. -/
inductive CondJump where
  | jumpNil | jumpNilElsePop | jumpNotNilElsePop
  deriving DecidableEq, Repr

/-- The opcode of a conditional jump kind. -/
def CondJump.opcode : CondJump → OpCode
  | .jumpNil => .JumpNil
  | .jumpNilElsePop => .JumpNilElsePop
  | .jumpNotNilElsePop => .JumpNotNilElsePop

/-- Claim-side description: whether the jump is taken for a given top of
stack. -/
def CondJump.taken : CondJump → Obj → Bool
  | .jumpNil, top => top.beq .nil
  | .jumpNilElsePop, top => top.beq .nil
  | .jumpNotNilElsePop, top => !(top.beq .nil)

/-- Claim-side description of the operand stack after the jump opcode:
`JumpNil` pops before testing; the "else pop" variants keep the tested
top on a taken jump and pop it otherwise. -/
def CondJump.stackAfter : CondJump → Obj → List Obj → List Obj
  | .jumpNil, _, below => below
  | .jumpNilElsePop, top, below => if top.beq .nil then below ++ [top] else below
  | .jumpNotNilElsePop, top, below => if top.beq .nil then below else below ++ [top]

/-- C1: the compiler's two-byte emission (`push_op_n2`, high byte first)
does NOT round-trip through the interpreter's `Ip::next2`, which decodes
with `u16::from_le_bytes`: the operand value 1 is written as the bytes
`[0, 1]` and read back as 256.  Consequently the interpreter, run on the
code the compiler emits for `(if nil 1 2)` (whose `JumpNil` displacement
4 is stored big-endian as `[0, 4]` but decoded as 1024), jumps out of
the code range instead of producing the value 2 that the interpreter's
own test suite expects. -/
theorem c1_next2_littleendian_vs_bigendian :
    next2OfList (pushOpN2bytes 1) = 256 ∧ (256 : Nat) ≠ 1 ∧
    run noSubr 20
      { stack := [], frames := [],
        frame := { codes := [.op .Constant0, .op .JumpNil, .byte 0, .byte 4,
                             .op .Constant1, .op .Jump, .byte 0, .byte 1,
                             .op .Constant2, .op .Ret],
                   consts := [.nil, .int 1, .int 2], pos := 0, start := 0 } }
      emptyEnv
      = .error .ipOutOfRange :=
  ⟨rfl, by decide, rfl⟩

/-- C9: compiling `(if nil 1 2)` yields exactly the opcode stream
`Constant0, JumpNil, 0, 4, Constant1, Jump, 0, 1, Constant2, Ret` with
constant pool `[nil, 1, 2]`. -/
theorem c9_if_nil_bytes :
    compile noSubr 100
      (.cons (.sym "if") (.cons .nil (.cons (.int 1) (.cons (.int 2) .nil))))
      emptyEnv
    = .ok ({ opCodes := [.op .Constant0, .op .JumpNil, .byte 0, .byte 4,
                          .op .Constant1, .op .Jump, .byte 0, .byte 1,
                          .op .Constant2, .op .Ret],
             constants := [.nil, .int 1, .int 2] }, emptyEnv) := by
  rfl

/-- C10: a `&rest` token followed by no symbol is accepted and leaves
`rest` unset: `(lambda (x &rest) x)` compiles to the same
one-required-argument, no-rest function as `(lambda (x) x)`. -/
theorem c10_rest_without_name :
    compileLambda noSubr 10 emptyEnv
        (.cons (.cons (.sym "x") (.cons (.sym "&rest") .nil))
          (.cons (.sym "x") .nil))
      = compileLambda noSubr 10 emptyEnv
          (.cons (.cons (.sym "x") .nil) (.cons (.sym "x") .nil)) ∧
    compileLambda noSubr 10 emptyEnv
        (.cons (.cons (.sym "x") (.cons (.sym "&rest") .nil))
          (.cons (.sym "x") .nil))
      = .ok (.lispFn [.op .StackRef0, .op .Ret] []
              { required := 1, optional := 0, rest := false }, emptyEnv) :=
  ⟨rfl, rfl⟩

/-- Claim C2, counterexample: a head symbol whose function binding is a
cons cell that is NOT a macro (here `(nil . nil)`) is silently skipped:
compiling the call form `(f)` emits no constant push and no `Call`
opcode at all, leaving the compiler state untouched. -/
theorem c2_counterexample :
    compileFuncall noSubr 10
        (emptySt { vars := [], funcs := [("f", Obj.cons .nil .nil)],
                   macroStack := [] }) "f" .nil
      = .ok (emptySt { vars := [], funcs := [("f", Obj.cons .nil .nil)],
                       macroStack := [] }) ∧
    (emptySt { vars := [], funcs := [("f", Obj.cons .nil .nil)],
               macroStack := [] }).codes = [] :=
  ⟨rfl, rfl⟩

/-- Claim C2 (amended): when the head symbol's function binding is not a
cons cell at all, `compile_funcall` pushes the head symbol as a
constant, compiles the arguments in order (the loop appends one count
per argument), emits `Call(n)`, and rewinds the virtual stack to the
pre-call depth plus one. -/
theorem c2_funcall_noncons (subr : SubrImpl) (fuel : Nat) (st s1 s2 : CompSt)
    (name : String) (args : Obj) (argList : List Obj) (n : Nat)
    (hnotcons : ∀ c d, symbolFunction st.env name ≠ .cons c d)
    (h1 : constRef st (.sym name) none = .ok s1)
    (hargs : listElems args = .ok argList)
    (h2 : compileArgsLoop subr fuel s1 argList 0 = .ok (s2, n))
    (hlen : s1.vars.length ≤ s2.vars.length) :
    compileFuncall subr (fuel + 1) st name args
        = .ok { s2 with codes := emitCall s2.codes (n % 65536),
                        vars := s2.vars.take (st.vars.length + 1) } ∧
      n = argList.length ∧
      (s2.vars.take (st.vars.length + 1)).length = st.vars.length + 1 := by
  have hs1vars : s1.vars = st.vars ++ [none] := by
    unfold constRef at h1
    cases hci : constVecInsert st.constants (.sym name) with
    | error e =>
      rw [hci] at h1
      simp only [bind, Except.bind] at h1
      exact (Except.noConfusion h1)
    | ok p =>
      rw [hci] at h1
      simp only [bind, Except.bind] at h1
      injection h1 with h1
      subst h1
      rfl
  have hs1len : s1.vars.length = st.vars.length + 1 := by simp [hs1vars]
  have hn := compileArgsLoop_count subr fuel s1 argList 0 s2 n h2
  refine ⟨?_, by omega, by rw [List.length_take]; omega⟩
  rcases hsf : symbolFunction st.env name with
    _ | _ | m | s | s' | ⟨car, cdr⟩ | ⟨c, k, a⟩ | ⟨m', a'⟩
  case cons => exact absurd hsf (hnotcons _ _)
  all_goals
    simp only [compileFuncall, hsf, h1, hargs, h2, bind, Except.bind, hs1len]

/-- Claim C2, witness: compiling `(f 1)` with `f` unbound emits
`Constant0 (f), Constant1 (1), Call1` with the virtual stack at depth
one. -/
theorem c2_witness :
    compileFuncall noSubr 5 (emptySt emptyEnv) "f" (.cons (.int 1) .nil)
        = .ok { codes := [.op .Constant0, .op .Constant1, .op .Call1],
                constants := [.sym "f", .int 1], vars := [none],
                env := emptyEnv } ∧
      1 = ([Obj.int 1] : List Obj).length ∧
      (([none, none] : List (Option String)).take
          ((emptySt emptyEnv).vars.length + 1)).length
        = (emptySt emptyEnv).vars.length + 1 :=
  c2_funcall_noncons noSubr 4 (emptySt emptyEnv)
    { codes := [.op .Constant0], constants := [.sym "f"], vars := [none],
      env := emptyEnv }
    { codes := [.op .Constant0, .op .Constant1],
      constants := [.sym "f", .int 1], vars := [none, none], env := emptyEnv }
    "f" (.cons (.int 1) .nil) [.int 1] 1
    (fun _ _ h => Obj.noConfusion h) rfl rfl rfl (by decide)

/-- Claim C3, counterexample: `insert_or_get` DOES deduplicate
list-typed entries — `Cons`'s `PartialEq` is structural — so inserting a
list equal to an existing pool entry returns the existing index 0 and
does not append. -/
theorem c3_counterexample :
    insertOrGet [Obj.cons (.int 1) (Obj.cons (.int 2) .nil)]
        (Obj.cons (.int 1) (Obj.cons (.int 2) .nil))
      = ([Obj.cons (.int 1) (Obj.cons (.int 2) .nil)], 0) ∧
    (insertOrGet [Obj.cons (.int 1) (Obj.cons (.int 2) .nil)]
        (Obj.cons (.int 1) (Obj.cons (.int 2) .nil))).1.length = 1 :=
  ⟨rfl, rfl⟩

/-- Claim C3 (amended): whenever a structurally equal entry is present,
`insert_or_get` returns an index of such an entry and leaves the pool
unchanged — for every entry type, cons cells included — while
`insert_lambda` appends a fresh slot even then. -/
theorem c3_insert_or_get_dedups (consts : List Obj) (obj : Obj) (j : Nat)
    (hj : j < consts.length) (hbeq : Obj.beq obj (consts.getD j .nil) = true)
    (hlen : consts.length < 65536) :
    (insertOrGet consts obj).1 = consts ∧
    (insertOrGet consts obj).2 < consts.length ∧
    Obj.beq obj (consts.getD (insertOrGet consts obj).2 .nil) = true ∧
    insertLambda consts obj = .ok (consts ++ [obj], consts.length) := by
  have hmem : consts.getD j .nil ∈ consts := by
    rw [List.getD_eq_getElem _ _ hj]
    exact List.getElem_mem hj
  have hfind := List.findIdx?_eq_some_of_exists (p := fun x => Obj.beq obj x)
    ⟨consts.getD j .nil, hmem, hbeq⟩
  obtain ⟨hlt, hp, -⟩ := (List.findIdx?_eq_some_iff_getElem).mp hfind
  unfold insertOrGet
  rw [hfind]
  refine ⟨rfl, hlt, ?_, ?_⟩
  · rw [List.getD_eq_getElem _ _ hlt]
    exact hp
  · simp [insertLambda, hlen]

/-- Claim C3, witness: inserting `5` into the pool `[5]` returns index 0
without appending, while `insert_lambda` appends even though an equal
entry exists. -/
theorem c3_witness :
    (insertOrGet [Obj.int 5] (.int 5)).1 = [Obj.int 5] ∧
    (insertOrGet [Obj.int 5] (.int 5)).2 < 1 ∧
    Obj.beq (.int 5) (([Obj.int 5] : List Obj).getD
      (insertOrGet [Obj.int 5] (.int 5)).2 .nil) = true ∧
    insertLambda [Obj.int 5] (.int 5) = .ok ([Obj.int 5, Obj.int 5], 1) :=
  c3_insert_or_get_dedups [Obj.int 5] (.int 5) 0 (by decide) rfl (by decide)

/-- Claim C4, counterexample: on a code vector of 32770 bytes the
displacement `len − 0 − 2 = 32768` does not fit `i16`, yet
`set_jump_placeholder` raises no error: it writes the wrapped bytes
`[128, 0]`, which decode (big-endian `i16`) to `−32768`, not to the
true displacement. -/
theorem c4_counterexample :
    (¬ (((List.replicate 32770 (Code.byte 0)).length : Int) - 0 - 2 ≤ 32767)) ∧
    (setJumpPlaceholder (List.replicate 32770 (Code.byte 0)) 0)[(0 : Nat)]?
        = some (.byte 128) ∧
    (setJumpPlaceholder (List.replicate 32770 (Code.byte 0)) 0)[(1 : Nat)]?
        = some (.byte 0) ∧
    asI16 (128 * 256 + 0) = -32768 ∧
    (-32768 : Int) ≠ ((List.replicate 32770 (Code.byte 0)).length : Int) - 0 - 2 := by
  have hl : (List.replicate 32770 (Code.byte 0)).length = 32770 :=
    List.length_replicate 32770 _
  obtain ⟨h1, h2, h3⟩ := setJumpPlaceholder_get (List.replicate 32770 (Code.byte 0)) 0
    (by rw [hl]; omega)
  refine ⟨by rw [hl]; decide, ?_, ?_, by decide, by rw [hl]; decide⟩
  · rw [h2, hl]
    decide
  · have h01 : (0 : Nat) + 1 = 1 := rfl
    rw [← h01, h3, hl]
    decide

/-- Claim C4 (amended): `set_jump_placeholder` and `push_back_jump`
compute their displacement with wrapping `i16` casts: the two written
bytes always decode (as big-endian `i16`) to the displacement reduced
into `[−32768, 32767]` modulo `2 ^ 16`, which equals the true
displacement exactly when it fits `i16`; no error is ever raised. -/
theorem c4_jump_offsets_wrap (cv : CodeVec) (index : Nat)
    (h : index + 1 < cv.length) :
    ((setJumpPlaceholder cv index).length = cv.length ∧
     ∃ bh bl,
       (setJumpPlaceholder cv index)[index]? = some (.byte bh) ∧
       (setJumpPlaceholder cv index)[index + 1]? = some (.byte bl) ∧
       asI16 (bh * 256 + bl)
         = ((cv.length : Int) - index - 2 + 32768) % 65536 - 32768 ∧
       (asI16 (bh * 256 + bl) = (cv.length : Int) - index - 2 ↔
         -32768 ≤ (cv.length : Int) - index - 2 ∧
           (cv.length : Int) - index - 2 ≤ 32767)) ∧
    (∃ bh bl,
       pushBackJump cv index = cv ++ [.byte bh, .byte bl] ∧
       asI16 (bh * 256 + bl)
         = ((index : Int) - cv.length - 2 + 32768) % 65536 - 32768 ∧
       (asI16 (bh * 256 + bl) = (index : Int) - cv.length - 2 ↔
         -32768 ≤ (index : Int) - cv.length - 2 ∧
           (index : Int) - cv.length - 2 ≤ 32767)) := by
  obtain ⟨h1, h2, h3⟩ := setJumpPlaceholder_get cv index h
  constructor
  · refine ⟨h1, _, _, h2, h3, asI16_split_bytes _, ?_⟩
    rw [asI16_split_bytes]
    exact wrap_eq_self_iff _
  · refine ⟨_, _, rfl, asI16_split_bytes _, ?_⟩
    rw [asI16_split_bytes]
    exact wrap_eq_self_iff _

/-- Claim C4, witness: patching the placeholder at index 0 of a
four-byte code vector writes a displacement of 2, which fits `i16` and
decodes back to itself. -/
theorem c4_witness :
    (0 : Nat) + 1 < ([Code.byte 0, .byte 0, .byte 0, .byte 0] : CodeVec).length ∧
    ((setJumpPlaceholder [Code.byte 0, .byte 0, .byte 0, .byte 0] 0).length
        = ([Code.byte 0, .byte 0, .byte 0, .byte 0] : CodeVec).length ∧
     ∃ bh bl,
       (setJumpPlaceholder [Code.byte 0, .byte 0, .byte 0, .byte 0] 0)[(0 : Nat)]?
          = some (.byte bh) ∧
       (setJumpPlaceholder [Code.byte 0, .byte 0, .byte 0, .byte 0] 0)[(0 : Nat) + 1]?
          = some (.byte bl) ∧
       asI16 (bh * 256 + bl)
         = ((([Code.byte 0, .byte 0, .byte 0, .byte 0] : CodeVec).length : Int)
             - (0 : Nat) - 2 + 32768) % 65536 - 32768 ∧
       (asI16 (bh * 256 + bl)
           = (([Code.byte 0, .byte 0, .byte 0, .byte 0] : CodeVec).length : Int)
             - (0 : Nat) - 2 ↔
         -32768 ≤ (([Code.byte 0, .byte 0, .byte 0, .byte 0] : CodeVec).length : Int)
             - (0 : Nat) - 2 ∧
           (([Code.byte 0, .byte 0, .byte 0, .byte 0] : CodeVec).length : Int)
             - (0 : Nat) - 2 ≤ 32767)) ∧
    (∃ bh bl,
       pushBackJump [Code.byte 0, .byte 0, .byte 0, .byte 0] 0
          = [Code.byte 0, .byte 0, .byte 0, .byte 0] ++ [.byte bh, .byte bl] ∧
       asI16 (bh * 256 + bl)
         = (((0 : Nat) : Int)
             - ([Code.byte 0, .byte 0, .byte 0, .byte 0] : CodeVec).length - 2
             + 32768) % 65536 - 32768 ∧
       (asI16 (bh * 256 + bl)
           = ((0 : Nat) : Int)
             - ([Code.byte 0, .byte 0, .byte 0, .byte 0] : CodeVec).length - 2 ↔
         -32768 ≤ ((0 : Nat) : Int)
             - ([Code.byte 0, .byte 0, .byte 0, .byte 0] : CodeVec).length - 2 ∧
           ((0 : Nat) : Int)
             - ([Code.byte 0, .byte 0, .byte 0, .byte 0] : CodeVec).length - 2
             ≤ 32767)) :=
  ⟨by decide, c4_jump_offsets_wrap [Code.byte 0, .byte 0, .byte 0, .byte 0] 0 (by decide)⟩

/-- Claim C5, counterexample: a macro whose head symbol `m` is already on
`macro_callstack` but whose body is a COMPILED function is not rejected:
`compile_macro_call` runs the body (here returning 42) instead of
raising `RecursiveMacro`. -/
theorem c5_counterexample :
    compileMacroCall noSubr 10
        (emptySt { vars := [], funcs := [], macroStack := ["m"] }) "m" .nil
        (.lispFn [.op .Constant0, .op .Ret] [.int 42]
          { required := 0, optional := 0, rest := false })
      = .ok (.int 42, emptySt { vars := [], funcs := [], macroStack := ["m"] }) :=
  rfl

/-- Claim C5 (amended): only the raw-cons body shape consults
`macro_callstack`: expansion of a cons-bodied macro whose head symbol is
already on the stack fails with `RecursiveMacro` (once the unevaluated
argument list has been collected). -/
theorem c5_recursion_check_cons_only (subr : SubrImpl) (fuel : Nat)
    (st : CompSt) (name : String) (args carB cdrB : Obj) (argList : List Obj)
    (hargs : listElems args = .ok argList)
    (hstack : st.env.macroStack.contains name = true) :
    compileMacroCall subr (fuel + 1) st name args (.cons carB cdrB)
      = .error .macroRecursion := by
  simp only [compileMacroCall, hargs, hstack]
  rfl

/-- Claim C5, witness: a cons-bodied macro `m` already mid-expansion is
rejected with `RecursiveMacro`. -/
theorem c5_witness :
    compileMacroCall noSubr 1
        (emptySt { vars := [], funcs := [], macroStack := ["m"] }) "m" .nil
        (.cons .nil .nil)
      = .error .macroRecursion :=
  c5_recursion_check_cons_only noSubr 0
    (emptySt { vars := [], funcs := [], macroStack := ["m"] }) "m" .nil .nil .nil
    [] rfl rfl

/-- Claim C6: `prepare_lisp_args` on a call with `n = args.length`
actual arguments pushes `required + optional − n` nils when
`n < required + optional`, and when `rest` is set replaces the slots
beyond `required + optional` by the single proper list of the overflow
arguments — an explicit nil (the empty list produced by
`slice_into_list` on no elements) filling the rest slot when there is no
overflow. -/
theorem c6_prepare_lisp_args (below args : List Obj) (fa : FnArgs)
    (hreq : fa.required ≤ args.length)
    (hmax : fa.rest = true ∨ args.length ≤ fa.required + fa.optional) :
    prepareLispArgs (below ++ args) fa args.length =
      .ok (below ++
        (if fa.rest then
          (args ++ List.replicate (fa.required + fa.optional - args.length) Obj.nil).take
              (fa.required + fa.optional)
            ++ [sliceIntoList
                ((args ++ List.replicate (fa.required + fa.optional - args.length) Obj.nil).drop
                  (fa.required + fa.optional)) none]
         else args ++ List.replicate (fa.required + fa.optional - args.length) Obj.nil),
        if fa.rest then fa.required + fa.optional + 1
        else fa.required + fa.optional) := by
  set total := fa.required + fa.optional with htotal
  have hfill : numOfFillArgs fa args.length = .ok (total - args.length) := by
    unfold numOfFillArgs
    rw [if_neg (by omega)]
    rcases hmax with hr | hle
    · rw [hr]
      simp
    · rw [if_neg (by simp; omega)]
  by_cases hc : args.length ≤ total
  · -- no overflow arguments
    have hrs : args.length + (total - args.length) - restArgsStart fa = 0 := by
      unfold restArgsStart; omega
    have hpadlen : (args ++ List.replicate (total - args.length) Obj.nil).length = total := by
      simp; omega
    simp only [prepareLispArgs, hfill, bind, Except.bind, hrs]
    rw [if_neg (by omega)]
    have htake : (args ++ List.replicate (total - args.length) Obj.nil).take total
        = args ++ List.replicate (total - args.length) Obj.nil :=
      List.take_of_length_le (by omega)
    have hdrop : (args ++ List.replicate (total - args.length) Obj.nil).drop total = [] :=
      List.drop_of_length_le (by omega)
    cases hrest : fa.rest with
    | true =>
      simp only [if_pos rfl, htake, hdrop]
      have harith : args.length + (total - args.length) + 1 = total + 1 := by omega
      rw [harith]
      simp [sliceIntoList, List.append_assoc]
    | false =>
      simp only [Bool.false_eq_true, if_neg, ite_false]
      have harith : args.length + (total - args.length) = total := by omega
      rw [harith, List.append_assoc]
  · -- overflow arguments exist; the arity check forces rest
    have hrest : fa.rest = true := by
      rcases hmax with hr | hle
      · exact hr
      · omega
    have hfill0 : total - args.length = 0 := by omega
    rw [hfill0] at hfill ⊢
    have hrs : args.length + 0 - restArgsStart fa = args.length - total := by
      unfold restArgsStart; omega
    simp only [prepareLispArgs, hfill, bind, Except.bind, hrs, List.replicate_zero,
      List.append_nil, hrest, if_pos rfl]
    rw [if_pos (by omega)]
    have hlen2 : (below ++ args).length = below.length + args.length := by simp
    have hsplit : below ++ args = (below ++ args.take total) ++ args.drop total := by
      rw [List.append_assoc, List.take_append_drop]
    have hlen1 : (below ++ args.take total).length = below.length + total := by
      simp [List.length_take]
      omega
    have hidx : (below ++ args).length - (args.length - total) = below.length + total := by
      rw [hlen2]; omega
    rw [hidx]
    have hdropi : (below ++ args).drop (below.length + total) = args.drop total := by
      rw [hsplit]
      exact List.drop_left' hlen1
    rw [hdropi]
    set L := sliceIntoList (args.drop total) none with hL
    have hset : (below ++ args).set (below.length + total) L
        = (below ++ args.take total) ++ (args.drop total).set 0 L := by
      rw [hsplit, List.set_append_right _ _ (by omega)]
      rw [hlen1]
      simp
    rw [hset]
    obtain ⟨y, ys, hd⟩ : ∃ y ys, args.drop total = y :: ys := by
      cases hd : args.drop total with
      | nil =>
        have hcontra := congrArg List.length hd
        simp [List.length_drop] at hcontra
        omega
      | cons y ys => exact ⟨y, ys, rfl⟩
    rw [hd]
    simp only [List.set_cons_zero]
    have htk : ((below ++ args.take total) ++ (L :: ys)).take (below.length + total + 1)
        = (below ++ args.take total) ++ [L] := by
      rw [List.take_append_eq_append_take, List.take_of_length_le (by omega), hlen1]
      have harith : below.length + total + 1 - (below.length + total) = 1 := by omega
      rw [harith]
      rfl
    rw [htk]
    have hcnt : args.length + 0 - (args.length - total) + 1 = total + 1 := by omega
    rw [hcnt]
    rw [List.append_assoc]
    simp

/-- Claim C6, witness: calling a `(required 1, optional 1, rest)`
function with arguments `7 9 11 13` pads nothing, collects `11 13` into
a proper list, and yields three argument slots. -/
theorem c6_witness :
    prepareLispArgs [Obj.int 7, .int 9, .int 11, .int 13]
        { required := 1, optional := 1, rest := true } 4
      = .ok ([Obj.int 7, .int 9,
              Obj.cons (.int 11) (Obj.cons (.int 13) .nil)], 3) := by
  have h := c6_prepare_lisp_args []
    [Obj.int 7, .int 9, .int 11, .int 13]
    { required := 1, optional := 1, rest := true } (by decide) (Or.inl rfl)
  simpa [sliceIntoList] using h

/-- Claim C7: `JumpNil` pops the top before testing and jumps iff it was
nil; `JumpNilElsePop` (resp. `JumpNotNilElsePop`) tests the top without
popping, jumps iff it is nil (resp. non-nil) leaving it on the stack,
and pops it when the jump is not taken.  The resulting stack and
instruction pointer are described by `CondJump.stackAfter` and
`CondJump.taken`. -/
theorem c7_conditional_jumps (subr : SubrImpl) (k : CondJump)
    (codes : List Code) (consts : List Obj) (pos start : Nat)
    (below : List Obj) (top : Obj) (b0 b1 : Nat) (frames : List Frame)
    (env : Env)
    (hop : codes.get? pos = some (.op k.opcode))
    (hb0 : codes.get? (pos + 1) = some (.byte b0))
    (hb1 : codes.get? (pos + 2) = some (.byte b1))
    (hrange : 0 ≤ (pos + 3 : Int) + asI16 (next2 b0 b1) ∧
      ((pos + 3 : Int) + asI16 (next2 b0 b1)).toNat ≤ codes.length) :
    runStep subr
        { stack := below ++ [top], frames := frames,
          frame := { codes := codes, consts := consts, pos := pos, start := start } } env
      = .ok (.next
          { stack := k.stackAfter top below, frames := frames,
            frame := { codes := codes, consts := consts,
                       pos := if k.taken top
                         then ((pos + 3 : Int) + asI16 (next2 b0 b1)).toNat
                         else pos + 3,
                       start := start } } env) := by
  have hb1' : codes.get? (pos + 1 + 1) = some (.byte b1) := by
    rw [show pos + 1 + 1 = pos + 2 by omega]
    exact hb1
  have hn2 : next2 (b0 % 256) (b1 % 256) = next2 b0 b1 := by
    unfold next2; omega
  have hrange2 : 0 ≤ ((pos + 3 : Nat) : Int) + asI16 (next2 b0 b1) ∧
      (((pos + 3 : Nat) : Int) + asI16 (next2 b0 b1)).toNat ≤ codes.length := by
    push_cast
    exact hrange
  cases k
  all_goals
    simp only [CondJump.opcode] at hop
  all_goals
    rcases Bool.eq_false_or_eq_true (top.beq Obj.nil) with hbeq | hbeq <;>
      (simp only [runStep, hop, List.getLast?_concat, fetchNext2, fetchByte, hb0, hb1',
        bind, Except.bind, hn2, CondJump.taken, CondJump.stackAfter, hbeq,
        Bool.not_true, Bool.not_false, Bool.false_eq_true, Bool.true_eq_false,
        if_true, if_false, ite_true, ite_false, List.dropLast_concat, contAt];
       all_goals (simp only [ipJump, if_pos hrange2, bind, Except.bind]; push_cast; rfl))

/-- Claim C7, witness: `JumpNil` at position 0 with offset 1 and a nil
top pops the nil and jumps to position 4. -/
theorem c7_witness :
    runStep noSubr
        { stack := [Obj.nil], frames := [],
          frame := { codes := [.op .JumpNil, .byte 1, .byte 0,
                               .op .Ret, .op .Ret, .op .Ret],
                     consts := [], pos := 0, start := 0 } } emptyEnv
      = .ok (.next
          { stack := [], frames := [],
            frame := { codes := [.op .JumpNil, .byte 1, .byte 0,
                                 .op .Ret, .op .Ret, .op .Ret],
                       consts := [], pos := 4, start := 0 } } emptyEnv) := by
  have h := c7_conditional_jumps noSubr .jumpNil
    [.op .JumpNil, .byte 1, .byte 0, .op .Ret, .op .Ret, .op .Ret]
    [] 0 0 [] Obj.nil 1 0 [] emptyEnv rfl rfl rfl
    (by constructor <;> simp [asI16, next2])
  simpa [CondJump.stackAfter, CondJump.taken, Obj.beq, asI16, next2] using h

/-- Claim C8: `Ret` with no outer call frame returns the top of the
operand stack as the program's value; with an outer frame it pops the
top, writes it into `stack[frame.start]`, truncates the stack to
`frame.start + 1` and pops back to the caller's frame. -/
theorem c8_ret (subr : SubrImpl) (codes : List Code) (consts : List Obj)
    (pos start : Nat) (below : List Obj) (top : Obj) (f : Frame)
    (fs : List Frame) (env : Env)
    (hop : codes.get? pos = some (.op .Ret))
    (hstart : start < below.length) :
    (runStep subr
        { stack := below ++ [top], frames := [],
          frame := { codes := codes, consts := consts, pos := pos, start := start } } env
      = .ok (.done top env)) ∧
    (runStep subr
        { stack := below ++ [top], frames := f :: fs,
          frame := { codes := codes, consts := consts, pos := pos, start := start } } env
      = .ok (.next { stack := (below.set start top).take (start + 1),
                     frames := fs, frame := f } env)) := by
  constructor
  · simp only [runStep, hop, List.getLast?_concat]
  · simp only [runStep, hop, List.getLast?_concat, List.dropLast_concat]
    rw [if_pos hstart]

/-- Claim C8, witness: `Ret` under a caller frame writes the return
value 3 into slot 0 (the frame start) and truncates; with no caller
frame it returns 3. -/
theorem c8_witness :
    (runStep noSubr
        { stack := [Obj.int 1, .int 2, .int 3], frames := [],
          frame := { codes := [.op .Ret], consts := [], pos := 0, start := 0 } }
        emptyEnv
      = .ok (.done (.int 3) emptyEnv)) ∧
    (runStep noSubr
        { stack := [Obj.int 1, .int 2, .int 3],
          frames := [{ codes := [], consts := [], pos := 0, start := 0 }],
          frame := { codes := [.op .Ret], consts := [], pos := 0, start := 0 } }
        emptyEnv
      = .ok (.next { stack := [Obj.int 3],
                     frames := [],
                     frame := { codes := [], consts := [], pos := 0, start := 0 } }
              emptyEnv)) := by
  have h := c8_ret noSubr [.op .Ret] [] 0 0 [Obj.int 1, .int 2] (.int 3)
    { codes := [], consts := [], pos := 0, start := 0 } [] emptyEnv rfl (by decide)
  simpa using h

end Rune
